import Mathlib

/-!
# Verification of the Inky e-Ink display driver core

A shallow embedding of `src/inky/inky.py` (the `Inky` class): the resolution
table, construction, pixel/border mutation, the orientation transforms and
bit-plane packing performed by `show`, and the command sequence emitted by
`_update` (commands are recorded as `(commandByte, dataBytes)` pairs; the
busy-wait outcomes of the GPIO transport are passed in explicitly).
-/

/-- Module-level colour code `WHITE = 0`. -/
def WHITE : Nat := 0

/-- Module-level colour code `BLACK = 1`. -/
def BLACK : Nat := 1

/-- Module-level colour code `RED = 2`. -/
def RED : Nat := 2

/-- Module-level colour code `YELLOW = 2` (aliases `RED`). -/
def YELLOW : Nat := 2

/-- The `_RESOLUTION` dictionary: `(width, height) -> (cols, rows, rotation)`. -/
def _RESOLUTION (res : Nat × Nat) : Option (Nat × Nat × Int) :=
  if res = (800, 480) then some (800, 480, 0)
  else if res = (600, 448) then some (600, 448, 0)
  else if res = (400, 300) then some (400, 300, 0)
  else if res = (212, 104) then some (104, 212, -90)
  else if res = (250, 122) then some (250, 122, -90)
  else none

/-- Modelled from the spec: the identity record (EEPROM, read via the
`eeprom` module which is not part of the core source) —
`{ width, height, variantCode, accentColorName }`. -/
structure EEPROM where
  width : Nat
  height : Nat
  display_variant : Nat
  color : String
deriving DecidableEq, Repr

/-- Modelled from the spec: `get_color` reports the identity record's
accent colour name. -/
def EEPROM.get_color (e : EEPROM) : String := e.color

/-- The mutable state of an `Inky` driver instance (the fields of the Python
object that the core logic reads and writes). -/
structure Inky where
  width : Nat
  height : Nat
  cols : Nat
  rows : Nat
  rotation : Int
  colour : String
  lut : String
  buf : List (List Nat)
  border_colour : Nat
  h_flip : Bool
  v_flip : Bool
deriving DecidableEq, Repr

/-- `Inky.__init__`: checks the resolution against `_RESOLUTION`, checks the
colour name, reads the identity record, optionally upgrades the LUT name to
`red_ht`, and allocates `buf = numpy.zeros((height, width))`.  Raised
`ValueError`s are modelled as `Except.error`. -/
def Inky.init (resolution : Nat × Nat) (colour : String) (ee : Option EEPROM)
    (h_flip : Bool) (v_flip : Bool) : Except String Inky :=
  match _RESOLUTION resolution with
  | none => .error ("Resolution not supported!")
  | some (cols, rows, rotation) =>
    if colour = "red" ∨ colour = "black" ∨ colour = "yellow" then
      match ee with
      | none =>
          .ok { width := resolution.1, height := resolution.2, cols, rows, rotation,
                colour, lut := colour,
                buf := List.replicate resolution.2 (List.replicate resolution.1 0),
                border_colour := 0, h_flip, v_flip }
      | some e =>
          if e.width ≠ resolution.1 ∨ e.height ≠ resolution.2 then
            .error ("Supplied width/height do not match Inky!")
          else
            .ok { width := resolution.1, height := resolution.2, cols, rows, rotation,
                  colour,
                  lut := if (e.display_variant = 1 ∨ e.display_variant = 6) ∧
                            e.get_color = "red" then "red_ht" else colour,
                  buf := List.replicate resolution.2 (List.replicate resolution.1 0),
                  border_colour := 0, h_flip, v_flip }
    else .error ("Colour is not supported!")

/-- `Inky.set_pixel`: writes `buf[y][x] = v` when `v in (WHITE, BLACK, RED)`,
otherwise does nothing. -/
def Inky.set_pixel (d : Inky) (x y v : Nat) : Inky :=
  if v = WHITE ∨ v = BLACK ∨ v = RED then
    { d with buf := d.buf.set y ((d.buf.getD y []).set x v) }
  else d

/-- `Inky.set_border`: stores the border colour when it is one of
`(WHITE, BLACK, RED)`, otherwise does nothing. -/
def Inky.set_border (d : Inky) (colour : Nat) : Inky :=
  if colour = WHITE ∨ colour = BLACK ∨ colour = RED then
    { d with border_colour := colour }
  else d

/-- `Inky.set_image`: the external resample/quantize step yields a
`height × width` matrix of palette indices (`img i j` is row `i`, column `j`);
the pasted canvas has PIL size `(rows, cols)`, hence array shape
`(cols, rows)`, zero-filled outside the pasted image. -/
def Inky.set_image (d : Inky) (img : Nat → Nat → Nat) : Inky :=
  { d with buf := (List.range d.cols).map (fun i =>
      (List.range d.rows).map (fun j =>
        if i < d.height ∧ j < d.width then img i j else 0)) }

/-- `numpy.fliplr`: reverse each row. -/
def fliplr (m : List (List Nat)) : List (List Nat) := m.map List.reverse

/-- `numpy.flipud`: reverse the order of the rows. -/
def flipud (m : List (List Nat)) : List (List Nat) := m.reverse

/-- Number of columns of a matrix (length of its first row). -/
def ncols (m : List (List Nat)) : Nat := (m.headD []).length

/-- Matrix transpose (for a rectangular matrix): row `j` of the result is
column `j` of the input. -/
def transposeM (m : List (List Nat)) : List (List Nat) :=
  (List.range (ncols m)).map (fun j => m.map (fun row => row.getD j 0))

/-- `numpy.rot90(m, -1)`: one clockwise quarter turn
(transpose, then reverse each row). -/
def rot90cw (m : List (List Nat)) : List (List Nat) := fliplr (transposeM m)

/-- The orientation pipeline of `Inky.show`: `fliplr` when `v_flip`, then
`flipud` when `h_flip`, then `numpy.rot90(region, rotation // 90)` when
`rotation` is nonzero (it is `-90`, so one clockwise turn). -/
def Inky.showRegion (d : Inky) : List (List Nat) :=
  let r0 := d.buf
  let r1 := if d.v_flip then fliplr r0 else r0
  let r2 := if d.h_flip then flipud r1 else r1
  if d.rotation ≠ 0 then rot90cw r2 else r2

/-- Fold 8 bits (most significant first) into one byte, as `numpy.packbits`
does per chunk. -/
def byteOfBits (bs : List Nat) : Nat := bs.foldl (fun acc b => 2 * acc + b) 0

/-- Group a bit list into bytes, 8 bits at a time, most significant first. -/
def toBytes : List Nat → List Nat
  | [] => []
  | b :: l => byteOfBits ((b :: l).take 8) :: toBytes ((b :: l).drop 8)
termination_by l => l.length
decreasing_by simp; omega

/-- `numpy.packbits`: pad the flattened bit list with zeros to a multiple of
8, then pack most-significant-bit first. -/
def packbits (bits : List Nat) : List Nat :=
  toBytes (bits ++ List.replicate ((8 - bits.length % 8) % 8) 0)

/-- The two bit-planes produced by `Inky.show`:
`buf_a = packbits(where(region == BLACK, 0, 1))` and
`buf_b = packbits(where(region == RED, 1, 0))`, flattened row-major. -/
def Inky.showPlanes (d : Inky) : List Nat × List Nat :=
  let flat := (Inky.showRegion d).flatten
  (packbits (flat.map (fun p => if p = BLACK then 0 else 1)),
   packbits (flat.map (fun p => if p = RED then 1 else 0)))

/-- `struct.pack("<H", n)`: little-endian 16-bit encoding. -/
def le16 (n : Nat) : List Nat := [n % 256, n / 256 % 256]

/-- The 70-byte `black` LUT. -/
def lutBlack : List Nat :=
  [0b01001000, 0b10100000, 0b00010000, 0b00010000, 0b00010011, 0b00000000, 0b00000000,
   0b01001000, 0b10100000, 0b10000000, 0b00000000, 0b00000011, 0b00000000, 0b00000000,
   0b00000000, 0b00000000, 0b00000000, 0b00000000, 0b00000000, 0b00000000, 0b00000000,
   0b01001000, 0b10100101, 0b00000000, 0b10111011, 0b00000000, 0b00000000, 0b00000000,
   0b00000000, 0b00000000, 0b00000000, 0b00000000, 0b00000000, 0b00000000, 0b00000000,
   0x10, 0x04, 0x04, 0x04, 0x04,
   0x10, 0x04, 0x04, 0x04, 0x04,
   0x04, 0x08, 0x08, 0x10, 0x10,
   0x00, 0x00, 0x00, 0x00, 0x00,
   0x00, 0x00, 0x00, 0x00, 0x00,
   0x00, 0x00, 0x00, 0x00, 0x00,
   0x00, 0x00, 0x00, 0x00, 0x00]

/-- The 70-byte `red` LUT. -/
def lutRed : List Nat :=
  [0b01001000, 0b10100000, 0b00010000, 0b00010000, 0b00010011, 0b00000000, 0b00000000,
   0b01001000, 0b10100000, 0b10000000, 0b00000000, 0b00000011, 0b00000000, 0b00000000,
   0b00000000, 0b00000000, 0b00000000, 0b00000000, 0b00000000, 0b00000000, 0b00000000,
   0b01001000, 0b10100101, 0b00000000, 0b10111011, 0b00000000, 0b00000000, 0b00000000,
   0b00000000, 0b00000000, 0b00000000, 0b00000000, 0b00000000, 0b00000000, 0b00000000,
   0x40, 0x0C, 0x20, 0x0C, 0x06,
   0x10, 0x08, 0x04, 0x04, 0x06,
   0x04, 0x08, 0x08, 0x10, 0x10,
   0x02, 0x02, 0x02, 0x40, 0x20,
   0x02, 0x02, 0x02, 0x02, 0x02,
   0x00, 0x00, 0x00, 0x00, 0x00,
   0x00, 0x00, 0x00, 0x00, 0x00]

/-- The 70-byte `red_ht` (high-temperature red) LUT. -/
def lutRedHT : List Nat :=
  [0b01001000, 0b10100000, 0b00010000, 0b00010000, 0b00010011, 0b00010000, 0b00010000,
   0b01001000, 0b10100000, 0b10000000, 0b00000000, 0b00000011, 0b10000000, 0b10000000,
   0b00000000, 0b00000000, 0b00000000, 0b00000000, 0b00000000, 0b00000000, 0b00000000,
   0b01001000, 0b10100101, 0b00000000, 0b10111011, 0b00000000, 0b01001000, 0b00000000,
   0b00000000, 0b00000000, 0b00000000, 0b00000000, 0b00000000, 0b00000000, 0b00000000,
   0x43, 0x0A, 0x1F, 0x0A, 0x04,
   0x10, 0x08, 0x04, 0x04, 0x06,
   0x04, 0x08, 0x08, 0x10, 0x0B,
   0x02, 0x04, 0x04, 0x40, 0x10,
   0x06, 0x06, 0x06, 0x02, 0x02,
   0x00, 0x00, 0x00, 0x00, 0x00,
   0x00, 0x00, 0x00, 0x00, 0x00]

/-- The 70-byte `yellow` LUT. -/
def lutYellow : List Nat :=
  [0b11111010, 0b10010100, 0b10001100, 0b11000000, 0b11010000, 0b00000000, 0b00000000,
   0b11111010, 0b10010100, 0b00101100, 0b10000000, 0b11100000, 0b00000000, 0b00000000,
   0b11111010, 0b00000000, 0b00000000, 0b00000000, 0b00000000, 0b00000000, 0b00000000,
   0b11111010, 0b10010100, 0b11111000, 0b10000000, 0b01010000, 0b00000000, 0b11001100,
   0b10111111, 0b01011000, 0b11111100, 0b10000000, 0b11010000, 0b00000000, 0b00010001,
   0x40, 0x10, 0x40, 0x10, 0x08,
   0x08, 0x10, 0x04, 0x04, 0x10,
   0x08, 0x08, 0x03, 0x08, 0x20,
   0x08, 0x04, 0x00, 0x00, 0x10,
   0x10, 0x08, 0x08, 0x00, 0x20,
   0x00, 0x00, 0x00, 0x00, 0x00,
   0x00, 0x00, 0x00, 0x00, 0x00]

/-- The `_luts` dictionary lookup `self._luts[self.lut]`. -/
def Inky.lutData (d : Inky) : List Nat :=
  if d.lut = "black" then lutBlack
  else if d.lut = "red" then lutRed
  else if d.lut = "red_ht" then lutRedHT
  else if d.lut = "yellow" then lutYellow
  else []

/-- A recorded command: command byte paired with its data bytes
(`[]` when the command carries no data). -/
abbrev Cmd := Nat × List Nat

/-- The observable state of the busy line and the edge-event queue at the two
points where `_busy_wait` runs: after the soft reset (`busy1`, `edge1`) and
after the refresh trigger (`busy2`, `edge2`). -/
structure GpioState where
  busy1 : Bool
  edge1 : Bool
  busy2 : Bool
  edge2 : Bool
deriving DecidableEq, Repr

/-- `Inky._busy_wait` succeeds when the busy pin is not asserted, or an edge
event arrives before the timeout. -/
def busyWaitOk (busy edge : Bool) : Bool := !busy || edge

/-- The straight-line command stream of `Inky._update` between the soft-reset
wait and the refresh trigger (block control, gate setting, voltages, timing,
data-entry mode, VCOM, border, LUT, RAM windows, the two plane writes, and
the update trigger). -/
def Inky.bodyCmds (d : Inky) (buf_a buf_b : List Nat) : List Cmd :=
  [(0x74, [0x54]), (0x7E, [0x3B]),
   (0x01, le16 d.rows ++ [0x00]),
   (0x03, [0x17]),
   (0x04, [0x41, 0xAC, 0x32]),
   (0x3A, [0x07]),
   (0x3B, [0x04]),
   (0x11, [0x03]),
   (0x2C, [0x3C]),
   (0x3C, [0b00000000])]
  ++ (if d.border_colour = BLACK then [(0x3C, [0b00000000])]
      else if d.border_colour = RED ∧ d.colour = "red" then [(0x3C, [0b01110011])]
      else if d.border_colour = YELLOW ∧ d.colour = "yellow" then [(0x3C, [0b00110011])]
      else if d.border_colour = WHITE then [(0x3C, [0b00110001])]
      else [])
  ++ (if d.colour = "yellow" then [(0x04, [0x07, 0xAC, 0x32])] else [])
  ++ (if d.colour = "red" ∧ (d.width, d.height) = (400, 300)
      then [(0x04, [0x30, 0xAC, 0x22])] else [])
  ++ [(0x32, d.lutData),
      (0x44, [0x00, d.cols / 8 - 1]),
      (0x45, [0x00, 0x00] ++ le16 d.rows),
      (0x4E, [0x00]), (0x4F, [0x00, 0x00]), (0x24, buf_a),
      (0x4E, [0x00]), (0x4F, [0x00, 0x00]), (0x26, buf_b),
      (0x22, [0xC7]), (0x20, [])]

/-- `Inky._update` (including the `setup` it calls first): returns the
commands recorded through the transport together with the outcome (`.ok` on
completion, `.error` when a busy wait times out).  `setup` sends the soft
reset `0x12` and waits; on success the body commands follow; with
`busy_wait = true` the post-trigger wait gates the final deep-sleep command
`(0x10, 0x01)`. -/
def Inky.updateCmds (d : Inky) (buf_a buf_b : List Nat) (busy_wait : Bool)
    (g : GpioState) : List Cmd × Except String Unit :=
  if busyWaitOk g.busy1 g.edge1 = false then
    ([(0x12, [])], .error ("Timeout waiting for busy signal to clear."))
  else
    let cmds := (0x12, ([] : List Nat)) :: d.bodyCmds buf_a buf_b
    if busy_wait then
      if busyWaitOk g.busy2 g.edge2 then (cmds ++ [(0x10, [0x01])], .ok ())
      else (cmds, .error ("Timeout waiting for busy signal to clear."))
    else (cmds, .ok ())

/-! ## Helper lemmas about construction -/

/-- Everything `Inky.init` guarantees about a successfully constructed
instance. -/
theorem Inky.init_ok_spec (res : Nat × Nat) (colour : String) (ee : Option EEPROM)
    (hf vf : Bool) (d : Inky) (h : Inky.init res colour ee hf vf = .ok d) :
    _RESOLUTION res = some (d.cols, d.rows, d.rotation) ∧
    (colour = "red" ∨ colour = "black" ∨ colour = "yellow") ∧
    d.width = res.1 ∧ d.height = res.2 ∧ d.colour = colour ∧
    d.buf = List.replicate res.2 (List.replicate res.1 0) ∧
    d.border_colour = 0 ∧ d.h_flip = hf ∧ d.v_flip = vf ∧
    (ee = none → d.lut = colour) ∧
    (∀ e, ee = some e →
       d.lut = if (e.display_variant = 1 ∨ e.display_variant = 6) ∧
                  e.get_color = "red" then "red_ht" else colour) := by
  unfold Inky.init at h
  split at h
  · exact absurd h (by simp)
  · rename_i cols rows rotation heq
    split_ifs at h with hc
    split at h
    · simp only [Except.ok.injEq] at h
      subst h
      refine ⟨heq, hc, rfl, rfl, rfl, rfl, rfl, rfl, rfl, fun _ => rfl, ?_⟩
      intro e' he'
      exact Option.noConfusion he'
    · split_ifs at h with hdim hv
      · simp only [Except.ok.injEq] at h
        subst h
        refine ⟨heq, hc, rfl, rfl, rfl, rfl, rfl, rfl, rfl, ?_, ?_⟩
        · intro habs; exact Option.noConfusion habs
        · intro e' he'
          cases he'
          exact (if_pos hv).symm
      · simp only [Except.ok.injEq] at h
        subst h
        refine ⟨heq, hc, rfl, rfl, rfl, rfl, rfl, rfl, rfl, ?_, ?_⟩
        · intro habs; exact Option.noConfusion habs
        · intro e' he'
          cases he'
          exact (if_neg hv).symm

/-- The five `_RESOLUTION` entries all have positive geometry and the display
pixel count equals the controller pixel count. -/
theorem _RESOLUTION_geom (res : Nat × Nat) (c r : Nat) (rot : Int)
    (h : _RESOLUTION res = some (c, r, rot)) :
    res.2 * res.1 = r * c ∧ 0 < c ∧ 0 < r ∧ 0 < res.1 ∧ 0 < res.2 := by
  unfold _RESOLUTION at h
  split_ifs at h with h1 h2 h3 h4 h5
  · obtain ⟨hc, hr, _⟩ := by simpa using h
    subst hc; subst hr; subst h1; norm_num
  · obtain ⟨hc, hr, _⟩ := by simpa using h
    subst hc; subst hr; subst h2; norm_num
  · obtain ⟨hc, hr, _⟩ := by simpa using h
    subst hc; subst hr; subst h3; norm_num
  · obtain ⟨hc, hr, _⟩ := by simpa using h
    subst hc; subst hr; subst h4; norm_num
  · obtain ⟨hc, hr, _⟩ := by simpa using h
    subst hc; subst hr; subst h5; norm_num

/-! ## C6 -/

/-- C6: construction succeeds for exactly the five supported resolutions;
for each the derived controller geometry `(cols, rows, rotation)` matches the
documented table, and any other resolution yields a configuration error
(raised by the pure constructor, hence before any transport activity). -/
theorem C6_supported_resolutions (res : Nat × Nat) (colour : String)
    (ee : Option EEPROM) (hf vf : Bool) :
    (∀ d : Inky, Inky.init res colour ee hf vf = .ok d →
       (res = (800, 480) ∧ (d.cols, d.rows, d.rotation) = (800, 480, 0)) ∨
       (res = (600, 448) ∧ (d.cols, d.rows, d.rotation) = (600, 448, 0)) ∨
       (res = (400, 300) ∧ (d.cols, d.rows, d.rotation) = (400, 300, 0)) ∨
       (res = (212, 104) ∧ (d.cols, d.rows, d.rotation) = (104, 212, -90)) ∨
       (res = (250, 122) ∧ (d.cols, d.rows, d.rotation) = (250, 122, -90))) ∧
    (res ∈ ([(800, 480), (600, 448), (400, 300), (212, 104), (250, 122)] :
        List (Nat × Nat)) →
      ∃ d : Inky, Inky.init res ("black") none hf vf = .ok d) ∧
    (res ∉ ([(800, 480), (600, 448), (400, 300), (212, 104), (250, 122)] :
        List (Nat × Nat)) →
      Inky.init res colour ee hf vf = .error ("Resolution not supported!")) := by
  refine ⟨?_, ?_, ?_⟩
  · intro d h
    have hs := (Inky.init_ok_spec res colour ee hf vf d h).1
    unfold _RESOLUTION at hs
    split_ifs at hs with h1 h2 h3 h4 h5 <;>
      simp only [Option.some.injEq, Prod.mk.injEq] at hs
    · exact Or.inl ⟨h1, by obtain ⟨a, b, c⟩ := hs; simp [← a, ← b, ← c]⟩
    · exact Or.inr (Or.inl ⟨h2, by obtain ⟨a, b, c⟩ := hs; simp [← a, ← b, ← c]⟩)
    · exact Or.inr (Or.inr (Or.inl ⟨h3, by obtain ⟨a, b, c⟩ := hs; simp [← a, ← b, ← c]⟩))
    · exact Or.inr (Or.inr (Or.inr (Or.inl ⟨h4, by obtain ⟨a, b, c⟩ := hs; simp [← a, ← b, ← c]⟩)))
    · exact Or.inr (Or.inr (Or.inr (Or.inr ⟨h5, by obtain ⟨a, b, c⟩ := hs; simp [← a, ← b, ← c]⟩)))
  · intro hmem
    simp only [List.mem_cons, List.not_mem_nil, or_false] at hmem
    rcases hmem with h | h | h | h | h <;> subst h <;> exact ⟨_, rfl⟩
  · intro hmem
    have hnone : _RESOLUTION res = none := by
      unfold _RESOLUTION
      split_ifs with h1 h2 h3 h4 h5
      · exact absurd (by simp [h1]) hmem
      · exact absurd (by simp [h2]) hmem
      · exact absurd (by simp [h3]) hmem
      · exact absurd (by simp [h4]) hmem
      · exact absurd (by simp [h5]) hmem
      · rfl
    unfold Inky.init
    rw [hnone]

/-- Witness for C6 at the resolution `(640, 400)`, which is not supported. -/
theorem C6_witness :
    ((640, 400) ∉ ([(800, 480), (600, 448), (400, 300), (212, 104), (250, 122)] :
        List (Nat × Nat))) ∧
    Inky.init (640, 400) ("black") none false false =
      .error ("Resolution not supported!") :=
  ⟨by decide,
   (C6_supported_resolutions (640, 400) ("black") none false false).2.2 (by decide)⟩

/-! ## C7 -/

/-- C7: for an out-of-range colour value `set_pixel` leaves the driver state
(in particular the whole pixel buffer) unchanged and raises nothing; for a
value in `{WHITE, BLACK, ACCENT} = {0, 1, 2}` and an in-bounds position it
writes the value at the addressed cell. -/
theorem C7_set_pixel (d : Inky) (x y v : Nat) :
    (¬(v = 0 ∨ v = 1 ∨ v = 2) → d.set_pixel x y v = d) ∧
    ((v = 0 ∨ v = 1 ∨ v = 2) → y < d.buf.length → x < (d.buf.getD y []).length →
       ((d.set_pixel x y v).buf.getD y []).getD x 0 = v) := by
  constructor
  · intro hv
    have hv' : ¬(v = WHITE ∨ v = BLACK ∨ v = RED) := hv
    unfold Inky.set_pixel
    rw [if_neg hv']
  · intro hv hy hx
    have hv' : v = WHITE ∨ v = BLACK ∨ v = RED := hv
    unfold Inky.set_pixel
    rw [if_pos hv']
    simp only [List.getD_eq_getElem?_getD] at hx ⊢
    rw [List.getElem?_set_eq_of_lt _ hy]
    simp only [Option.getD_some]
    rw [List.getElem?_set_eq_of_lt _ hx]
    rfl

/-- Witness for C7: on a concrete driver state, the out-of-range value `7`
leaves the state unchanged, and the in-range value `2` is written at `(0, 0)`. -/
theorem C7_witness :
    (¬((7 : Nat) = 0 ∨ (7 : Nat) = 1 ∨ (7 : Nat) = 2) →
      (Inky.mk 3 2 3 2 0 ("black") ("black") [[0, 0, 0], [0, 0, 0]] 0 false
          false).set_pixel 1 1 7 =
        Inky.mk 3 2 3 2 0 ("black") ("black") [[0, 0, 0], [0, 0, 0]] 0 false false) ∧
    ((((Inky.mk 3 2 3 2 0 ("black") ("black") [[0, 0, 0], [0, 0, 0]] 0 false
          false).set_pixel 0 0 2).buf.getD 0 []).getD 0 0 = 2) :=
  ⟨(C7_set_pixel (Inky.mk 3 2 3 2 0 ("black") ("black") [[0, 0, 0], [0, 0, 0]] 0
      false false) 1 1 7).1,
   (C7_set_pixel (Inky.mk 3 2 3 2 0 ("black") ("black") [[0, 0, 0], [0, 0, 0]] 0
      false false) 0 0 2).2 (by decide) (by decide) (by decide)⟩

/-! ## C10 -/

/-- C10: for a colour value outside `{WHITE, BLACK, ACCENT} = {0, 1, 2}`,
`set_border` leaves the driver state (in particular the stored border colour)
unchanged and raises nothing, mirroring `set_pixel`. -/
theorem C10_set_border (d : Inky) (v : Nat) :
    ¬(v = 0 ∨ v = 1 ∨ v = 2) → d.set_border v = d := by
  intro hv
  have hv' : ¬(v = WHITE ∨ v = BLACK ∨ v = RED) := hv
  unfold Inky.set_border
  rw [if_neg hv']

/-- Witness for C10 at the out-of-range value `5`. -/
theorem C10_witness :
    (Inky.mk 3 2 3 2 0 ("black") ("black") [[0, 0, 0], [0, 0, 0]] 0 false
        false).set_border 5 =
      Inky.mk 3 2 3 2 0 ("black") ("black") [[0, 0, 0], [0, 0, 0]] 0 false false :=
  C10_set_border (Inky.mk 3 2 3 2 0 ("black") ("black") [[0, 0, 0], [0, 0, 0]] 0
    false false) 5 (by decide)

/-! ## C3 -/

/-- C3 counterexample: requesting the "black" profile on a device whose
identity record reports variant code 1 and accent colour "red" selects the
"red_ht" LUT, so the claim that profiles "yellow" and "black" never select
"red_ht" is false on the code. -/
theorem C3_counterexample :
    (Inky.init (400, 300) ("black") (some ⟨400, 300, 1, "red"⟩) false
        false).toOption.map Inky.lut = some ("red_ht") ∧
    ("black" : String) ≠ "red_ht" :=
  ⟨rfl, by decide⟩

/-- C3 (amended): for every successful construction, the selected LUT is
"red_ht" exactly when the identity record is present, reports variant code
1 or 6, and its accent colour resolves to "red" — irrespective of the
requested profile; otherwise the selected LUT equals the requested profile. -/
theorem C3_lut_selection (res : Nat × Nat) (colour : String) (ee : Option EEPROM)
    (hf vf : Bool) (d : Inky) (h : Inky.init res colour ee hf vf = .ok d) :
    (d.lut = "red_ht" ↔
       ∃ e, ee = some e ∧ (e.display_variant = 1 ∨ e.display_variant = 6) ∧
         e.get_color = "red") ∧
    ((∀ e, ee = some e → ¬((e.display_variant = 1 ∨ e.display_variant = 6) ∧
        e.get_color = "red")) → d.lut = colour) := by
  obtain ⟨-, hc, -, -, -, -, -, -, -, hnone, hsome⟩ :=
    Inky.init_ok_spec res colour ee hf vf d h
  have hcne : colour ≠ "red_ht" := by
    rcases hc with h' | h' | h' <;> rw [h'] <;> decide
  cases ee with
  | none =>
    refine ⟨⟨fun hl => absurd ((hnone rfl).symm.trans hl) hcne, ?_⟩, fun _ => hnone rfl⟩
    rintro ⟨e, he, -⟩
    exact Option.noConfusion he
  | some e =>
    have hl := hsome e rfl
    by_cases hcond : (e.display_variant = 1 ∨ e.display_variant = 6) ∧
        e.get_color = "red"
    · rw [if_pos hcond] at hl
      exact ⟨⟨fun _ => ⟨e, rfl, hcond.1, hcond.2⟩, fun _ => hl⟩,
             fun hno => absurd hcond (hno e rfl)⟩
    · rw [if_neg hcond] at hl
      refine ⟨⟨fun habs => ?_, ?_⟩, fun _ => hl⟩
      · rw [hl] at habs
        exact absurd habs hcne
      · rintro ⟨e', he', h1, h2⟩
        cases he'
        exact absurd ⟨h1, h2⟩ hcond

/-- Witness for C3's amended theorem: a "red" device with a variant-6,
red-accent identity record selects the "red_ht" LUT. -/
theorem C3_witness :
    ∃ d : Inky, Inky.init (400, 300) ("red") (some ⟨400, 300, 6, "red"⟩) false
        false = .ok d ∧ d.lut = "red_ht" := by
  refine ⟨_, rfl, ?_⟩
  exact (C3_lut_selection (400, 300) ("red") (some ⟨400, 300, 6, "red"⟩) false
    false _ rfl).1.mpr ⟨⟨400, 300, 6, "red"⟩, rfl, Or.inr rfl, rfl⟩

/-! ## Command-stream helper lemmas -/

/-- The concrete driver state produced by constructing a 400x300 "black"
display with no identity record. -/
def inky400 : Inky :=
  { width := 400, height := 300, cols := 400, rows := 300, rotation := 0,
    colour := "black", lut := "black",
    buf := List.replicate 300 (List.replicate 400 0),
    border_colour := 0, h_flip := false, v_flip := false }

/-- `inky400` is what `Inky.init` returns for a 400x300 "black" display. -/
theorem inky400_init :
    Inky.init (400, 300) ("black") none false false = .ok inky400 := rfl

/-- The deep-sleep command never occurs in the body of the update stream. -/
theorem deepSleep_not_mem_body (d : Inky) (a b : List Nat) :
    (0x10, [0x01]) ∉ d.bodyCmds a b := by
  unfold Inky.bodyCmds
  split_ifs <;> simp

/-- The update stream without the deep-sleep step ends with the trigger
command `0x20`. -/
theorem body_getLast (d : Inky) (a b : List Nat) :
    ((0x12, ([] : List Nat)) :: d.bodyCmds a b).getLast? = some (0x20, []) := by
  unfold Inky.bodyCmds
  split_ifs <;> rfl

/-! ## C9 -/

/-- C9 counterexample: the first recorded command of an update is the soft
reset `0x12` issued by `setup`, not the analog block-control command
`(0x74, 0x54)`, so the recorded sequence does not begin with the
block-control bytes. -/
theorem C9_counterexample :
    (inky400.updateCmds [] [] true ⟨false, false, false, false⟩).1.headD (0, []) =
      (0x12, []) ∧
    ((0x12, ([] : List Nat)) : Cmd) ≠ (0x74, [0x54]) :=
  ⟨rfl, by decide⟩

/-- C9 (amended): whenever the soft-reset busy wait succeeds, the recorded
command sequence begins with the soft reset `0x12` followed immediately by
the analog block-control command `(0x74, 0x54)` and the digital
block-control command `(0x7E, 0x3B)`, before any other command. -/
theorem C9_first_commands (d : Inky) (a b : List Nat) (w : Bool) (g : GpioState)
    (h : busyWaitOk g.busy1 g.edge1 = true) :
    (d.updateCmds a b w g).1.take 3 =
      [(0x12, []), (0x74, [0x54]), (0x7E, [0x3B])] := by
  unfold Inky.updateCmds Inky.bodyCmds
  rw [if_neg (by simp [h])]
  split_ifs <;> rfl

/-- Witness for C9's amended theorem on a concrete run. -/
theorem C9_witness :
    (inky400.updateCmds [] [] true ⟨false, true, false, true⟩).1.take 3 =
      [(0x12, []), (0x74, [0x54]), (0x7E, [0x3B])] :=
  C9_first_commands inky400 [] [] true ⟨false, true, false, true⟩ rfl

/-! ## C4 -/

/-- C4 counterexample: on the 400x300 panel the RAM-Y window command `0x45`
carries payload `[0x00, 0x00, 44, 1]`, which encodes end `= 300 = rows`,
not `rows - 1 = 299` (whose little-endian encoding is `[43, 1]`). -/
theorem C4_counterexample :
    (inky400.updateCmds [] [] false ⟨false, false, false, false⟩).1.filter
        (fun c => c.1 == 0x45) = [(0x45, [0x00, 0x00, 44, 1])] ∧
    [0x00, 0x00, 44, 1] ≠ [0x00, 0x00] ++ le16 (inky400.rows - 1) ∧
    le16 (inky400.rows - 1) = [43, 1] ∧ le16 inky400.rows = [44, 1] :=
  ⟨rfl, by decide, by decide, by decide⟩

/-- C4 (amended): in every update the RAM-X window command `0x44` carries
payload `[0x00, cols/8 - 1]` (span 0 through cols/8 - 1, as claimed), and
the RAM-Y window command `0x45` carries payload `[0x00, 0x00] ++ le16 rows`:
start 0 and end `rows` — not `rows - 1` — as little-endian 16-bit values. -/
theorem C4_ram_window (d : Inky) (a b : List Nat) (w : Bool) (g : GpioState)
    (h : busyWaitOk g.busy1 g.edge1 = true) :
    (d.updateCmds a b w g).1.filter (fun c => c.1 == 0x44) =
      [(0x44, [0x00, d.cols / 8 - 1])] ∧
    (d.updateCmds a b w g).1.filter (fun c => c.1 == 0x45) =
      [(0x45, [0x00, 0x00] ++ le16 d.rows)] := by
  unfold Inky.updateCmds Inky.bodyCmds
  rw [if_neg (by simp [h])]
  constructor <;> split_ifs <;> rfl

/-- Witness for C4's amended theorem on a concrete run. -/
theorem C4_witness :
    (inky400.updateCmds [] [] false ⟨false, true, false, true⟩).1.filter
        (fun c => c.1 == 0x44) = [(0x44, [0x00, inky400.cols / 8 - 1])] ∧
    (inky400.updateCmds [] [] false ⟨false, true, false, true⟩).1.filter
        (fun c => c.1 == 0x45) = [(0x45, [0x00, 0x00] ++ le16 inky400.rows)] :=
  C4_ram_window inky400 [] [] false ⟨false, true, false, true⟩ rfl

/-! ## C5 -/

/-- C5: the deep-sleep command `(0x10, 0x01)` appears in the recorded stream
exactly when the caller requested completion-blocking and both busy waits
succeed, and in that case it is the final command and the update completes;
a failed busy wait (e.g. the edge wait reporting no event while busy is
asserted) makes the update raise the timeout error with deep-sleep never
issued; opting out of blocking ends the successful stream at the trigger
command `0x20` with no deep-sleep. -/
theorem C5_deep_sleep (d : Inky) (a b : List Nat) (w : Bool) (g : GpioState) :
    ((0x10, [0x01]) ∈ (d.updateCmds a b w g).1 ↔
       w = true ∧ busyWaitOk g.busy1 g.edge1 = true ∧
         busyWaitOk g.busy2 g.edge2 = true) ∧
    (w = true → busyWaitOk g.busy1 g.edge1 = true →
       busyWaitOk g.busy2 g.edge2 = true →
       (d.updateCmds a b w g).2 = .ok () ∧
       (d.updateCmds a b w g).1.getLast? = some (0x10, [0x01])) ∧
    (busyWaitOk g.busy1 g.edge1 = false ∨
       (w = true ∧ busyWaitOk g.busy2 g.edge2 = false) →
       (d.updateCmds a b w g).2 =
         .error ("Timeout waiting for busy signal to clear.") ∧
       (0x10, [0x01]) ∉ (d.updateCmds a b w g).1) ∧
    (w = false → busyWaitOk g.busy1 g.edge1 = true →
       (d.updateCmds a b w g).2 = .ok () ∧
       (d.updateCmds a b w g).1.getLast? = some (0x20, []) ∧
       (0x10, [0x01]) ∉ (d.updateCmds a b w g).1) := by
  cases hb1 : busyWaitOk g.busy1 g.edge1 with
  | false =>
    simp only [Inky.updateCmds, hb1, Bool.false_eq_true, if_true]
    refine ⟨?_, ?_, ?_, ?_⟩
    · simp
    · intro _ habs
      exact absurd habs (by simp)
    · intro _
      exact ⟨trivial, by simp⟩
    · intro _ habs
      exact absurd habs (by simp)
  | true =>
    have hmem := deepSleep_not_mem_body d a b
    cases w with
    | false =>
      simp only [Inky.updateCmds, hb1, Bool.true_eq_false, Bool.false_eq_true,
        if_false]
      refine ⟨?_, ?_, ?_, ?_⟩
      · simp only [List.mem_cons, false_and, iff_false]
        rintro (habs | habs)
        · exact absurd habs (by decide)
        · exact absurd habs hmem
      · intro habs
        exact absurd habs (by simp)
      · rintro (habs | ⟨habs, -⟩)
        · exact absurd habs (by simp)
        · exact absurd habs (by simp)
      · intro _ _
        refine ⟨trivial, body_getLast d a b, ?_⟩
        simp only [List.mem_cons]
        rintro (habs | habs)
        · exact absurd habs (by decide)
        · exact absurd habs hmem
    | true =>
      cases hb2 : busyWaitOk g.busy2 g.edge2 with
      | false =>
        simp only [Inky.updateCmds, hb1, hb2, Bool.true_eq_false,
          Bool.false_eq_true, if_false, if_true]
        refine ⟨?_, ?_, ?_, ?_⟩
        · simp only [List.mem_cons, and_false, iff_false]
          rintro (habs | habs)
          · exact absurd habs (by decide)
          · exact absurd habs hmem
        · intro _ _ habs
          exact absurd habs (by simp)
        · intro _
          refine ⟨trivial, ?_⟩
          simp only [List.mem_cons]
          rintro (habs | habs)
          · exact absurd habs (by decide)
          · exact absurd habs hmem
        · intro habs
          exact absurd habs (by simp)
      | true =>
        simp only [Inky.updateCmds, hb1, hb2, Bool.true_eq_false, if_false,
          if_true]
        refine ⟨?_, ?_, ?_, ?_⟩
        · simp
        · intro _ _ _
          exact ⟨trivial, List.getLast?_concat ((0x12, ([] : List Nat)) :: d.bodyCmds a b)⟩
        · rintro (habs | ⟨-, habs⟩) <;> exact absurd habs (by simp)
        · intro habs
          exact absurd habs (by simp)

/-- Witness for C5: a blocking update with both busy waits succeeding
completes and ends with deep-sleep. -/
theorem C5_witness :
    (inky400.updateCmds [] [] true ⟨false, true, false, true⟩).2 = .ok () ∧
    (inky400.updateCmds [] [] true ⟨false, true, false, true⟩).1.getLast? =
      some (0x10, [0x01]) :=
  (C5_deep_sleep inky400 [] [] true ⟨false, true, false, true⟩).2.1 rfl rfl rfl

/-! ## Bit-packing lemmas -/

/-- Bit `i` of a packed plane: bit `7 - i % 8` of byte `i / 8`
(row-major, most-significant-bit first, 8 pixels per byte). -/
def planeBit (plane : List Nat) (i : Nat) : Bool :=
  (plane.getD (i / 8) 0).testBit (7 - i % 8)

theorem byteOfBits_append (bs : List Nat) (b : Nat) :
    byteOfBits (bs ++ [b]) = 2 * byteOfBits bs + b := by
  unfold byteOfBits
  rw [List.foldl_append]
  rfl

theorem byteOfBits_testBit (bs : List Nat) (hb : ∀ x ∈ bs, x ≤ 1) :
    ∀ j, j < bs.length →
      (byteOfBits bs).testBit (bs.length - 1 - j) = decide (bs.getD j 0 = 1) := by
  induction bs using List.reverseRecOn with
  | nil => intro j hj; simp at hj
  | append_singleton l a ih =>
    intro j hj
    have ha : a ≤ 1 := hb a (by simp)
    have hl : ∀ x ∈ l, x ≤ 1 := fun x hx => hb x (by simp [hx])
    rw [byteOfBits_append]
    simp only [List.length_append, List.length_cons, List.length_nil] at hj ⊢
    rcases Nat.lt_or_ge j l.length with hcase | hcase
    · rw [show l.length + (0 + 1) - 1 - j = (l.length - 1 - j) + 1 from by omega]
      rw [Nat.testBit_add_one]
      rw [show (2 * byteOfBits l + a) / 2 = byteOfBits l from by omega]
      have hgd : (l ++ [a]).getD j 0 = l.getD j 0 := by
        rw [List.getD_eq_getElem?_getD, List.getD_eq_getElem?_getD,
          List.getElem?_append, if_pos hcase]
      rw [hgd]
      exact ih hl j hcase
    · have hj' : j = l.length := by omega
      subst hj'
      rw [show l.length + (0 + 1) - 1 - l.length = 0 from by omega]
      rw [Nat.testBit_zero]
      have hgd : (l ++ [a]).getD l.length 0 = a := by
        rw [List.getD_eq_getElem?_getD, List.getElem?_append_right (Nat.le_refl _)]
        simp
      rw [hgd]
      rw [show (2 * byteOfBits l + a) % 2 = a from by omega]

theorem toBytes_getD (l : List Nat) :
    ∀ k, (toBytes l).getD k 0 = byteOfBits ((l.drop (8 * k)).take 8) := by
  induction l using toBytes.induct with
  | case1 =>
    intro k
    simp [toBytes, byteOfBits]
  | case2 b t ih =>
    intro k
    cases k with
    | zero =>
      rw [toBytes]
      simp
    | succ k =>
      rw [toBytes]
      rw [List.getD_cons_succ]
      rw [ih k]
      have hd : ((b :: t).drop 8).drop (8 * k) = (b :: t).drop (8 * (k + 1)) := by
        rw [List.drop_drop]
        congr 1
        omega
      rw [hd]

theorem toBytes_length (l : List Nat) : (toBytes l).length = (l.length + 7) / 8 := by
  induction l using toBytes.induct with
  | case1 => simp [toBytes]
  | case2 b t ih =>
    rw [toBytes]
    simp only [List.length_cons]
    rw [ih]
    simp only [List.length_drop, List.length_cons]
    omega

theorem byteOfBits_all_zero (bs : List Nat) (h : ∀ x ∈ bs, x = 0) :
    byteOfBits bs = 0 := by
  induction bs with
  | nil => rfl
  | cons x t ih =>
    have hx : x = 0 := h x (by simp)
    unfold byteOfBits at ih ⊢
    simp only [List.foldl_cons, hx]
    simpa using ih (fun y hy => h y (by simp [hy]))

theorem toBytes_all_zero (l : List Nat) (h : ∀ x ∈ l, x = 0) :
    ∀ x ∈ toBytes l, x = 0 := by
  induction l using toBytes.induct with
  | case1 => intro x hx; simp [toBytes] at hx
  | case2 b t ih =>
    intro x hx
    rw [toBytes] at hx
    rcases List.mem_cons.mp hx with h1 | h1
    · rw [h1]
      exact byteOfBits_all_zero _ (fun y hy => h y (List.mem_of_mem_take hy))
    · exact ih (fun y hy => h y (List.mem_of_mem_drop hy)) x h1

theorem planeBit_packbits (bits : List Nat) (hb : ∀ x ∈ bits, x ≤ 1) (i : Nat)
    (hi : i < bits.length) :
    planeBit (packbits bits) i = decide (bits.getD i 0 = 1) := by
  unfold planeBit packbits
  set padded := bits ++ List.replicate ((8 - bits.length % 8) % 8) 0 with hpadded
  have hlen : padded.length = bits.length + (8 - bits.length % 8) % 8 := by
    simp [hpadded]
  have hmod : padded.length % 8 = 0 := by omega
  have hple : ∀ x ∈ padded, x ≤ 1 := by
    intro x hx
    rcases List.mem_append.mp hx with h1 | h1
    · exact hb x h1
    · rw [List.eq_of_mem_replicate h1]
      omega
  rw [toBytes_getD]
  set chunk := (padded.drop (8 * (i / 8))).take 8 with hchunk
  have hchunklen : chunk.length = 8 := by
    rw [hchunk, List.length_take, List.length_drop]
    omega
  have hchb : ∀ x ∈ chunk, x ≤ 1 := fun x hx =>
    hple x (List.mem_of_mem_drop (List.mem_of_mem_take hx))
  rw [show 7 - i % 8 = chunk.length - 1 - (i % 8) from by rw [hchunklen]]
  rw [byteOfBits_testBit chunk hchb (i % 8) (by rw [hchunklen]; omega)]
  have hcg : chunk.getD (i % 8) 0 = bits.getD i 0 := by
    rw [hchunk]
    rw [List.getD_eq_getElem?_getD, List.getElem?_take,
      if_pos (show i % 8 < 8 from by omega), List.getElem?_drop]
    rw [show 8 * (i / 8) + i % 8 = i from by omega]
    rw [List.getD_eq_getElem?_getD]
    rw [hpadded, List.getElem?_append, if_pos hi]
  rw [hcg]

/-! ## C1 -/

/-- C1: for every driver state (hence every pixel buffer and orientation
flag combination), in plane A the bit for a pixel is 0 exactly when that
pixel of the (oriented) region is BLACK, and in plane B the bit is 1 exactly
when the pixel is ACCENT (RED = 2); consequently an all-BLACK region packs to
an all-zero plane A, and an all-ACCENT region has every pixel bit of plane B
set.  `planeBit` reads the planes row-major, most-significant-bit first,
8 pixels per byte. -/
theorem C1_plane_polarity (d : Inky) :
    (∀ i, i < (Inky.showRegion d).flatten.length →
       (planeBit (Inky.showPlanes d).1 i = false ↔
          (Inky.showRegion d).flatten.getD i 0 = BLACK) ∧
       (planeBit (Inky.showPlanes d).2 i = true ↔
          (Inky.showRegion d).flatten.getD i 0 = RED)) ∧
    ((∀ p ∈ (Inky.showRegion d).flatten, p = BLACK) →
       ∀ x ∈ (Inky.showPlanes d).1, x = 0) ∧
    ((∀ p ∈ (Inky.showRegion d).flatten, p = RED) →
       ∀ i, i < (Inky.showRegion d).flatten.length →
         planeBit (Inky.showPlanes d).2 i = true) := by
  set flat := (Inky.showRegion d).flatten with hflat
  have hA : (Inky.showPlanes d).1 =
      packbits (flat.map (fun p => if p = BLACK then 0 else 1)) := rfl
  have hB : (Inky.showPlanes d).2 =
      packbits (flat.map (fun p => if p = RED then 1 else 0)) := rfl
  have hbA : ∀ x ∈ flat.map (fun p => if p = BLACK then 0 else 1), x ≤ 1 := by
    intro x hx
    rcases List.mem_map.mp hx with ⟨p, -, hpx⟩
    rw [← hpx]
    split_ifs <;> omega
  have hbB : ∀ x ∈ flat.map (fun p => if p = RED then 1 else 0), x ≤ 1 := by
    intro x hx
    rcases List.mem_map.mp hx with ⟨p, -, hpx⟩
    rw [← hpx]
    split_ifs <;> omega
  have hmapA : ∀ i, i < flat.length →
      (flat.map (fun p => if p = BLACK then 0 else 1)).getD i 0 =
        if flat.getD i 0 = BLACK then 0 else 1 := by
    intro i hi
    rw [List.getD_eq_getElem?_getD, List.getElem?_map,
      List.getElem?_eq_getElem hi, List.getD_eq_getElem?_getD,
      List.getElem?_eq_getElem hi]
    rfl
  have hmapB : ∀ i, i < flat.length →
      (flat.map (fun p => if p = RED then 1 else 0)).getD i 0 =
        if flat.getD i 0 = RED then 1 else 0 := by
    intro i hi
    rw [List.getD_eq_getElem?_getD, List.getElem?_map,
      List.getElem?_eq_getElem hi, List.getD_eq_getElem?_getD,
      List.getElem?_eq_getElem hi]
    rfl
  refine ⟨?_, ?_, ?_⟩
  · intro i hi
    constructor
    · rw [hA, planeBit_packbits _ hbA i (by simpa using hi), hmapA i hi]
      by_cases hp : flat.getD i 0 = BLACK
      · simp [hp]
      · simp [hp]
    · rw [hB, planeBit_packbits _ hbB i (by simpa using hi), hmapB i hi]
      by_cases hp : flat.getD i 0 = RED
      · simp [hp]
      · simp [hp]
  · intro hall
    rw [hA]
    unfold packbits
    refine toBytes_all_zero _ ?_
    intro x hx
    rcases List.mem_append.mp hx with h1 | h1
    · rcases List.mem_map.mp h1 with ⟨p, hp, hpx⟩
      rw [← hpx, hall p hp]
      simp
    · exact List.eq_of_mem_replicate h1
  · intro hall i hi
    rw [hB, planeBit_packbits _ hbB i (by simpa using hi), hmapB i hi]
    have hpi : flat.getD i 0 = RED := by
      rw [List.getD_eq_getElem?_getD, List.getElem?_eq_getElem hi]
      exact hall _ (List.getElem_mem hi)
    rw [if_pos hpi]
    rfl

/-- Witness for C1: an all-ACCENT 2x3 buffer has every plane-B pixel bit set. -/
theorem C1_witness :
    planeBit (Inky.showPlanes (Inky.mk 3 2 3 2 0 ("black") ("black")
        [[2, 2, 2], [2, 2, 2]] 0 false false)).2 0 = true :=
  (C1_plane_polarity (Inky.mk 3 2 3 2 0 ("black") ("black")
      [[2, 2, 2], [2, 2, 2]] 0 false false)).2.2 (by decide) 0 (by decide)

/-! ## Matrix lemmas for the orientation transforms -/

/-- A rectangular matrix: `h` rows, each of length `w`. -/
def rect (m : List (List Nat)) (h w : Nat) : Prop :=
  m.length = h ∧ ∀ r ∈ m, r.length = w

/-- Entry of a matrix at row `i`, column `j` (0 outside). -/
def getP (m : List (List Nat)) (i j : Nat) : Nat := (m.getD i []).getD j 0

theorem getD_row {m : List (List Nat)} {i : Nat} (hi : i < m.length) :
    m.getD i [] = m[i] := by
  rw [List.getD_eq_getElem?_getD, List.getElem?_eq_getElem hi]
  rfl

theorem ncols_rect {m : List (List Nat)} {h w : Nat} (hm : rect m h w)
    (hh : 0 < h) : ncols m = w := by
  obtain ⟨h1, h2⟩ := hm
  have hlen : 0 < m.length := h1 ▸ hh
  unfold ncols
  cases m with
  | nil => simp at hlen
  | cons a t => exact h2 a (by simp)

theorem rect_fliplr {m : List (List Nat)} {h w : Nat} (hm : rect m h w) :
    rect (fliplr m) h w := by
  obtain ⟨h1, h2⟩ := hm
  refine ⟨by simp [fliplr, h1], ?_⟩
  intro r hr
  rcases List.mem_map.mp hr with ⟨r0, hr0, hrr⟩
  rw [← hrr, List.length_reverse]
  exact h2 r0 hr0

theorem rect_flipud {m : List (List Nat)} {h w : Nat} (hm : rect m h w) :
    rect (flipud m) h w := by
  obtain ⟨h1, h2⟩ := hm
  exact ⟨by simp [flipud, h1], fun r hr => h2 r (List.mem_reverse.mp hr)⟩

theorem getP_fliplr {m : List (List Nat)} {h w : Nat} (hm : rect m h w)
    {i j : Nat} (hi : i < h) (hj : j < w) :
    getP (fliplr m) i j = getP m i (w - 1 - j) := by
  obtain ⟨h1, h2⟩ := hm
  unfold getP fliplr
  have hi' : i < m.length := h1 ▸ hi
  have him : i < (m.map List.reverse).length := by simpa using hi'
  rw [getD_row him, getD_row hi', List.getElem_map]
  have hrl : m[i].length = w := h2 _ (List.getElem_mem hi')
  rw [List.getD_eq_getElem?_getD, List.getD_eq_getElem?_getD]
  rw [List.getElem?_reverse (by rw [hrl]; exact hj)]
  rw [hrl]

theorem getP_flipud {m : List (List Nat)} {h w : Nat} (hm : rect m h w)
    {i j : Nat} (hi : i < h) :
    getP (flipud m) i j = getP m (h - 1 - i) j := by
  obtain ⟨h1, h2⟩ := hm
  subst h1
  unfold getP flipud
  have him : i < m.reverse.length := by simpa using hi
  rw [getD_row him, getD_row (show m.length - 1 - i < m.length from by omega)]
  rw [List.getElem_reverse]

theorem rect_transposeM {m : List (List Nat)} {h w : Nat} (hm : rect m h w)
    (hh : 0 < h) : rect (transposeM m) w h := by
  have hnc : ncols m = w := ncols_rect hm hh
  obtain ⟨h1, h2⟩ := hm
  refine ⟨by simp [transposeM, hnc], ?_⟩
  intro r hr
  rcases List.mem_map.mp hr with ⟨j, -, hjr⟩
  rw [← hjr]
  simp [h1]

theorem getP_transposeM {m : List (List Nat)} {h w : Nat} (hm : rect m h w)
    (hh : 0 < h) {i j : Nat} (hi : i < h) (hj : j < w) :
    getP (transposeM m) j i = getP m i j := by
  have hnc : ncols m = w := ncols_rect hm hh
  obtain ⟨h1, h2⟩ := hm
  unfold getP transposeM
  have hjm : j < ((List.range (ncols m)).map
      (fun j => m.map (fun row => row.getD j 0))).length := by
    simp [hnc]
    exact hj
  rw [getD_row hjm, List.getElem_map]
  have hjr : j < (List.range (ncols m)).length := by
    simp [hnc]
    exact hj
  rw [List.getElem_range]
  have hi' : i < m.length := h1 ▸ hi
  have him : i < (m.map (fun row => row.getD j 0)).length := by simpa using hi'
  rw [List.getD_eq_getElem?_getD, List.getElem?_eq_getElem him, List.getElem_map]
  rw [getD_row hi']
  rfl

theorem rect_rot90cw {m : List (List Nat)} {h w : Nat} (hm : rect m h w)
    (hh : 0 < h) : rect (rot90cw m) w h :=
  rect_fliplr (rect_transposeM hm hh)

theorem getP_rot90cw {m : List (List Nat)} {h w : Nat} (hm : rect m h w)
    (hh : 0 < h) {i j : Nat} (hi : i < w) (hj : j < h) :
    getP (rot90cw m) i j = getP m (h - 1 - j) i := by
  unfold rot90cw
  rw [getP_fliplr (rect_transposeM hm hh) hi hj]
  exact getP_transposeM hm hh (by omega) hi

/-! ## C8 -/

/-- C8: the packing input is obtained from the buffer by applying, in order,
the `v_flip` transform, then the `h_flip` transform, then zero or one
application of the 90-degree rotation exactly when the resolution table
dictates a nonzero rotation; the composite is characterised pointwise, which
pins the order (rotation last) and the single rotation application. -/
theorem C8_transform_order (d : Inky) (h w : Nat) (hr : rect d.buf h w)
    (hh : 0 < h) (hw : 0 < w) :
    (d.rotation = 0 →
       rect (Inky.showRegion d) h w ∧
       ∀ i j, i < h → j < w →
         getP (Inky.showRegion d) i j =
           getP d.buf (if d.h_flip then h - 1 - i else i)
             (if d.v_flip then w - 1 - j else j)) ∧
    (d.rotation ≠ 0 →
       rect (Inky.showRegion d) w h ∧
       ∀ i j, i < w → j < h →
         getP (Inky.showRegion d) i j =
           getP d.buf (if d.h_flip then j else h - 1 - j)
             (if d.v_flip then w - 1 - i else i)) := by
  unfold Inky.showRegion
  cases hv : d.v_flip <;> cases hhf : d.h_flip <;>
    simp only [hv, hhf, Bool.false_eq_true, Bool.true_eq_false, if_false,
      if_true, ite_true, ite_false]
  · -- v = false, h = false
    constructor
    · intro hrot
      rw [if_neg (by simp [hrot])]
      exact ⟨hr, fun i j hi hj => rfl⟩
    · intro hrot
      rw [if_pos hrot]
      refine ⟨rect_rot90cw hr hh, ?_⟩
      intro i j hi hj
      exact getP_rot90cw hr hh hi hj
  · -- v = false, h = true
    constructor
    · intro hrot
      rw [if_neg (by simp [hrot])]
      refine ⟨rect_flipud hr, ?_⟩
      intro i j hi hj
      exact getP_flipud hr hi
    · intro hrot
      rw [if_pos hrot]
      refine ⟨rect_rot90cw (rect_flipud hr) hh, ?_⟩
      intro i j hi hj
      rw [getP_rot90cw (rect_flipud hr) hh hi hj]
      rw [getP_flipud hr (by omega)]
      rw [show h - 1 - (h - 1 - j) = j from by omega]
  · -- v = true, h = false
    constructor
    · intro hrot
      rw [if_neg (by simp [hrot])]
      refine ⟨rect_fliplr hr, ?_⟩
      intro i j hi hj
      exact getP_fliplr hr hi hj
    · intro hrot
      rw [if_pos hrot]
      refine ⟨rect_rot90cw (rect_fliplr hr) hh, ?_⟩
      intro i j hi hj
      rw [getP_rot90cw (rect_fliplr hr) hh hi hj]
      exact getP_fliplr hr (by omega) hi
  · -- v = true, h = true
    constructor
    · intro hrot
      rw [if_neg (by simp [hrot])]
      refine ⟨rect_flipud (rect_fliplr hr), ?_⟩
      intro i j hi hj
      rw [getP_flipud (rect_fliplr hr) hi]
      exact getP_fliplr hr (by omega) hj
    · intro hrot
      rw [if_pos hrot]
      refine ⟨rect_rot90cw (rect_flipud (rect_fliplr hr)) hh, ?_⟩
      intro i j hi hj
      rw [getP_rot90cw (rect_flipud (rect_fliplr hr)) hh hi hj]
      rw [getP_flipud (rect_fliplr hr) (by omega)]
      rw [show h - 1 - (h - 1 - j) = j from by omega]
      exact getP_fliplr hr (by omega) hi

/-- Witness for C8 on a concrete 3x2 buffer with both flips set and
rotation -90. -/
theorem C8_witness :
    getP (Inky.showRegion (Inky.mk 2 3 2 3 (-90) ("black") ("black")
        [[1, 2], [3, 4], [5, 6]] 0 true true)) 0 1 =
      getP ([[1, 2], [3, 4], [5, 6]] : List (List Nat))
        (if true then 1 else 3 - 1 - 1) (if true then 2 - 1 - 0 else 0) :=
  ((C8_transform_order (Inky.mk 2 3 2 3 (-90) ("black") ("black")
      [[1, 2], [3, 4], [5, 6]] 0 true true) 3 2 (by constructor <;> simp)
      (by decide) (by decide)).2 (by decide)).2 0 1 (by decide) (by decide)

/-! ## C2 -/

/-- The mutating operations a caller can apply between construction and
transmission: single-pixel set, border set, bulk image load. -/
inductive DriverOp where
  | setp (x y v : Nat)
  | setb (c : Nat)
  | img (f : Nat → Nat → Nat)

/-- Apply one operation to the driver state. -/
def applyOp (d : Inky) : DriverOp → Inky
  | .setp x y v => d.set_pixel x y v
  | .setb c => d.set_border c
  | .img f => d.set_image f

/-- Whether an operation is a bulk image load (which reshapes the buffer). -/
def isImgOp : DriverOp → Bool
  | .setp _ _ _ => false
  | .setb _ => false
  | .img _ => true

/-- Setting one entry of one row preserves rectangularity. -/
theorem rect_set_row {m : List (List Nat)} {a b : Nat} (hm : rect m a b)
    (y x v : Nat) : rect (m.set y ((m.getD y []).set x v)) a b := by
  obtain ⟨h1, h2⟩ := hm
  by_cases hy : y < m.length
  · constructor
    · simpa using h1
    · intro r hr
      rcases List.mem_or_eq_of_mem_set hr with hr1 | hr1
      · exact h2 r hr1
      · rw [hr1, List.length_set, getD_row hy]
        exact h2 _ (List.getElem_mem hy)
  · rw [List.set_eq_of_length_le (by omega)]
    exact ⟨h1, h2⟩

/-- The buffer produced by `set_image` is a `cols × rows` matrix. -/
theorem rect_set_image (d : Inky) (f : Nat → Nat → Nat) :
    rect (d.set_image f).buf d.cols d.rows := by
  unfold Inky.set_image
  constructor
  · simp
  · intro r hr
    rcases List.mem_map.mp hr with ⟨i, -, hir⟩
    rw [← hir]
    simp

/-- The flattened length of a rectangular matrix. -/
theorem flatten_length_rect {m : List (List Nat)} {a b : Nat}
    (hm : rect m a b) : m.flatten.length = a * b := by
  obtain ⟨h1, h2⟩ := hm
  subst h1
  induction m with
  | nil => simp
  | cons r t ih =>
    simp only [List.flatten_cons, List.length_append, List.length_cons]
    rw [h2 r (by simp), ih (fun r hr => h2 r (by simp [hr]))]
    ring

/-- `packbits` produces `ceil(n/8)` bytes from `n` bits. -/
theorem packbits_length (bits : List Nat) :
    (packbits bits).length = (bits.length + 7) / 8 := by
  unfold packbits
  rw [toBytes_length]
  simp only [List.length_append, List.length_replicate]
  omega

/-- The oriented region of a rectangular `a × b` buffer holds `a * b` pixels. -/
theorem showRegion_flatten_length (d : Inky) {a b : Nat} (hr : rect d.buf a b)
    (ha : 0 < a) :
    (Inky.showRegion d).flatten.length = a * b := by
  simp only [Inky.showRegion]
  split_ifs <;>
    first
      | (rw [flatten_length_rect
            (rect_rot90cw (rect_flipud (rect_fliplr hr)) ha)]; ring)
      | (rw [flatten_length_rect (rect_rot90cw (rect_flipud hr) ha)]; ring)
      | (rw [flatten_length_rect (rect_rot90cw (rect_fliplr hr) ha)]; ring)
      | (rw [flatten_length_rect (rect_rot90cw hr ha)]; ring)
      | exact flatten_length_rect (rect_flipud (rect_fliplr hr))
      | exact flatten_length_rect (rect_flipud hr)
      | exact flatten_length_rect (rect_fliplr hr)
      | exact flatten_length_rect hr

/-- Both packed planes of a rectangular `a × b` buffer have `ceil(a*b/8)`
bytes. -/
theorem showPlanes_length (d : Inky) {a b : Nat} (hr : rect d.buf a b)
    (ha : 0 < a) :
    (Inky.showPlanes d).1.length = (a * b + 7) / 8 ∧
    (Inky.showPlanes d).2.length = (a * b + 7) / 8 := by
  have hf := showRegion_flatten_length d hr ha
  simp only [Inky.showPlanes]
  constructor <;> rw [packbits_length, List.length_map, hf]

/-- The buffer invariant maintained across operations. -/
def BufInv (d : Inky) : Prop :=
  (rect d.buf d.height d.width ∨ rect d.buf d.cols d.rows) ∧
  d.height * d.width = d.rows * d.cols ∧
  0 < d.height ∧ 0 < d.width ∧ 0 < d.rows ∧ 0 < d.cols

/-- Construction establishes the buffer invariant. -/
theorem bufInv_init {res : Nat × Nat} {colour : String} {ee : Option EEPROM}
    {hf vf : Bool} {d : Inky} (h : Inky.init res colour ee hf vf = .ok d) :
    BufInv d := by
  obtain ⟨hres, -, hwidth, hheight, -, hbuf, -, -, -, -, -⟩ :=
    Inky.init_ok_spec res colour ee hf vf d h
  obtain ⟨hmul, hc, hrw, h1, h2⟩ :=
    _RESOLUTION_geom res d.cols d.rows d.rotation hres
  refine ⟨Or.inl ⟨?_, ?_⟩, ?_, ?_, ?_, hrw, hc⟩
  · rw [hbuf]
    simp [hheight]
  · intro r hr'
    rw [hbuf] at hr'
    rw [List.eq_of_mem_replicate hr']
    simp [hwidth]
  · rw [hheight, hwidth]
    exact hmul
  · rw [hheight]
    exact h2
  · rw [hwidth]
    exact h1

/-- Every operation preserves the buffer invariant. -/
theorem bufInv_applyOp {d : Inky} (hd : BufInv d) (op : DriverOp) :
    BufInv (applyOp d op) := by
  obtain ⟨hrect, hmul, h1, h2, h3, h4⟩ := hd
  cases op with
  | setp x y v =>
    simp only [applyOp, Inky.set_pixel]
    split_ifs
    · rcases hrect with hre | hre
      · exact ⟨Or.inl (rect_set_row hre y x v), hmul, h1, h2, h3, h4⟩
      · exact ⟨Or.inr (rect_set_row hre y x v), hmul, h1, h2, h3, h4⟩
    · exact ⟨hrect, hmul, h1, h2, h3, h4⟩
  | setb c =>
    simp only [applyOp, Inky.set_border]
    split_ifs
    · exact ⟨hrect, hmul, h1, h2, h3, h4⟩
    · exact ⟨hrect, hmul, h1, h2, h3, h4⟩
  | img f =>
    simp only [applyOp]
    exact ⟨Or.inr (rect_set_image d f), hmul, h1, h2, h3, h4⟩

/-- The invariant survives any operation sequence. -/
theorem bufInv_foldl {d : Inky} (hd : BufInv d) (ops : List DriverOp) :
    BufInv (ops.foldl applyOp d) := by
  induction ops generalizing d with
  | nil => exact hd
  | cons op t ih => exact ih (bufInv_applyOp hd op)

/-- `set_pixel` preserves any rectangular shape of the buffer. -/
theorem rect_set_pixel {d : Inky} {a b : Nat} (hm : rect d.buf a b)
    (x y v : Nat) : rect (d.set_pixel x y v).buf a b := by
  unfold Inky.set_pixel
  split_ifs
  · exact rect_set_row hm y x v
  · exact hm

/-- `set_pixel` never changes the geometry fields. -/
theorem set_pixel_fields (d : Inky) (x y v : Nat) :
    (d.set_pixel x y v).height = d.height ∧ (d.set_pixel x y v).width = d.width ∧
    (d.set_pixel x y v).cols = d.cols ∧ (d.set_pixel x y v).rows = d.rows := by
  unfold Inky.set_pixel
  split_ifs <;> exact ⟨rfl, rfl, rfl, rfl⟩

/-- `set_border` never changes the geometry fields or the buffer. -/
theorem set_border_fields (d : Inky) (c : Nat) :
    (d.set_border c).height = d.height ∧ (d.set_border c).width = d.width ∧
    (d.set_border c).cols = d.cols ∧ (d.set_border c).rows = d.rows ∧
    (d.set_border c).buf = d.buf := by
  unfold Inky.set_border
  split_ifs <;> exact ⟨rfl, rfl, rfl, rfl, rfl⟩

/-- No operation changes the geometry fields. -/
theorem applyOp_fields (d : Inky) (op : DriverOp) :
    (applyOp d op).height = d.height ∧ (applyOp d op).width = d.width ∧
    (applyOp d op).cols = d.cols ∧ (applyOp d op).rows = d.rows := by
  cases op with
  | setp x y v => exact set_pixel_fields d x y v
  | setb c =>
    obtain ⟨a, b, c', d', -⟩ := set_border_fields d c
    exact ⟨a, b, c', d'⟩
  | img f => exact ⟨rfl, rfl, rfl, rfl⟩

/-- The constructed buffer is a `height × width` matrix. -/
theorem init_rect {res : Nat × Nat} {colour : String} {ee : Option EEPROM}
    {hf vf : Bool} {d : Inky} (h : Inky.init res colour ee hf vf = .ok d) :
    rect d.buf d.height d.width := by
  obtain ⟨-, -, hwidth, hheight, -, hbuf, -, -, -, -, -⟩ :=
    Inky.init_ok_spec res colour ee hf vf d h
  constructor
  · rw [hbuf]
    simp [hheight]
  · intro r hr
    rw [hbuf] at hr
    rw [List.eq_of_mem_replicate hr]
    simp [hwidth]

/-- Exact shape tracking, one step: a pixel or border write preserves the
current buffer shape, while an image load switches it to `(cols, rows)`. -/
theorem shapeInv_applyOp {d : Inky} {s : Bool}
    (hd : rect d.buf (if s then d.cols else d.height)
      (if s then d.rows else d.width)) (op : DriverOp) :
    rect (applyOp d op).buf
      (if s || isImgOp op then (applyOp d op).cols else (applyOp d op).height)
      (if s || isImgOp op then (applyOp d op).rows else (applyOp d op).width) := by
  obtain ⟨hh, hw, hc, hr⟩ := applyOp_fields d op
  rw [hh, hw, hc, hr]
  cases op with
  | setp x y v =>
    simp only [isImgOp, Bool.or_false]
    exact rect_set_pixel hd x y v
  | setb c =>
    simp only [isImgOp, Bool.or_false]
    show rect (d.set_border c).buf (if s then d.cols else d.height)
      (if s then d.rows else d.width)
    rw [(set_border_fields d c).2.2.2.2]
    exact hd
  | img f =>
    simp only [isImgOp, Bool.or_true, if_true]
    exact rect_set_image d f

/-- Exact shape tracking over an operation sequence: the buffer keeps the
shape recorded by the flag `s` (updated to `(cols, rows)` as soon as an image
load occurs). -/
theorem shapeInv_foldl (s : Bool) (d : Inky)
    (hd : rect d.buf (if s then d.cols else d.height)
      (if s then d.rows else d.width)) (ops : List DriverOp) :
    rect (ops.foldl applyOp d).buf
      (if s || ops.any isImgOp then (ops.foldl applyOp d).cols
       else (ops.foldl applyOp d).height)
      (if s || ops.any isImgOp then (ops.foldl applyOp d).rows
       else (ops.foldl applyOp d).width) := by
  induction ops generalizing s d with
  | nil => simpa using hd
  | cons op t ih =>
    simp only [List.foldl_cons, List.any_cons, ← Bool.or_assoc]
    exact ih (s || isImgOp op) (applyOp d op) (shapeInv_applyOp hd op)

/-- C2 counterexample: constructing a 212x104 display allocates a buffer of
shape `(height, width) = (104, 212)`, not `(controllerRows, controllerCols)
= (212, 104)`. -/
theorem C2_counterexample :
    (Inky.init (212, 104) ("black") none false false).toOption.map
        (fun d => ((d.buf.length, (d.buf.headD []).length), (d.rows, d.cols))) =
      some ((104, 212), (212, 104)) ∧
    ((104, 212) : Nat × Nat) ≠ (212, 104) :=
  ⟨rfl, by decide⟩

/-- C2 (amended): after construction and any sequence of operations the
buffer is rectangular, of shape `(height, width)` (as allocated by the
constructor) until the first bulk image load and of shape `(cols, rows)`
(as reshaped by `set_image`) from then on — in general not equal to
`(controllerRows, controllerCols)`, e.g. `104 × 212` at construction for the
`(212, 104)` resolution — and each packed plane always has exactly
`ceil(controllerRows*controllerCols/8)` bytes. -/
theorem C2_buffer_invariant (res : Nat × Nat) (colour : String)
    (ee : Option EEPROM) (hf vf : Bool) (d0 : Inky) (ops : List DriverOp)
    (h : Inky.init res colour ee hf vf = .ok d0) :
    rect (ops.foldl applyOp d0).buf
      (if ops.any isImgOp then (ops.foldl applyOp d0).cols
       else (ops.foldl applyOp d0).height)
      (if ops.any isImgOp then (ops.foldl applyOp d0).rows
       else (ops.foldl applyOp d0).width) ∧
    (Inky.showPlanes (ops.foldl applyOp d0)).1.length =
      ((ops.foldl applyOp d0).rows * (ops.foldl applyOp d0).cols + 7) / 8 ∧
    (Inky.showPlanes (ops.foldl applyOp d0)).2.length =
      ((ops.foldl applyOp d0).rows * (ops.foldl applyOp d0).cols + 7) / 8 := by
  have hshape := shapeInv_foldl false d0 (init_rect h) ops
  simp only [Bool.false_or] at hshape
  obtain ⟨hrect, hmul, h1, h2, h3, h4⟩ := bufInv_foldl (bufInv_init h) ops
  refine ⟨hshape, ?_, ?_⟩
  · rcases hrect with hre | hre
    · obtain ⟨p1, -⟩ := showPlanes_length _ hre h1
      rw [p1, hmul]
    · obtain ⟨p1, -⟩ := showPlanes_length _ hre h4
      rw [p1, Nat.mul_comm]
  · rcases hrect with hre | hre
    · obtain ⟨-, p2⟩ := showPlanes_length _ hre h1
      rw [p2, hmul]
    · obtain ⟨-, p2⟩ := showPlanes_length _ hre h4
      rw [p2, Nat.mul_comm]

/-- Witness for C2's amended theorem: a pixel write followed by an image
load on the 400x300 display (so the image-load shape case is exercised). -/
theorem C2_witness :
    rect (([DriverOp.setp 0 0 1,
        DriverOp.img (fun _ _ => 1)].foldl applyOp inky400).buf)
      (if [DriverOp.setp 0 0 1, DriverOp.img (fun _ _ => 1)].any isImgOp
       then ([DriverOp.setp 0 0 1,
          DriverOp.img (fun _ _ => 1)].foldl applyOp inky400).cols
       else ([DriverOp.setp 0 0 1,
          DriverOp.img (fun _ _ => 1)].foldl applyOp inky400).height)
      (if [DriverOp.setp 0 0 1, DriverOp.img (fun _ _ => 1)].any isImgOp
       then ([DriverOp.setp 0 0 1,
          DriverOp.img (fun _ _ => 1)].foldl applyOp inky400).rows
       else ([DriverOp.setp 0 0 1,
          DriverOp.img (fun _ _ => 1)].foldl applyOp inky400).width) ∧
    (Inky.showPlanes ([DriverOp.setp 0 0 1,
        DriverOp.img (fun _ _ => 1)].foldl applyOp inky400)).1.length =
      (([DriverOp.setp 0 0 1,
          DriverOp.img (fun _ _ => 1)].foldl applyOp inky400).rows *
        ([DriverOp.setp 0 0 1,
          DriverOp.img (fun _ _ => 1)].foldl applyOp inky400).cols + 7) / 8 ∧
    (Inky.showPlanes ([DriverOp.setp 0 0 1,
        DriverOp.img (fun _ _ => 1)].foldl applyOp inky400)).2.length =
      (([DriverOp.setp 0 0 1,
          DriverOp.img (fun _ _ => 1)].foldl applyOp inky400).rows *
        ([DriverOp.setp 0 0 1,
          DriverOp.img (fun _ _ => 1)].foldl applyOp inky400).cols + 7) / 8 :=
  C2_buffer_invariant (400, 300) ("black") none false false inky400
    [DriverOp.setp 0 0 1, DriverOp.img (fun _ _ => 1)] inky400_init
